import Mathlib

/-!
Verification of the audited sandboxed WebSocket terminal implemented in
`src/jest.setup.js` (module `setupTerminal`, together with its helpers
`mapCommands`, `sanitizeArgs`, `sendText` and the constants `SAFE_DIR`,
`MAX_MSG_LEN`).

Strings are modelled as `List Char` (JavaScript strings, with `String.data`
used for literals).  The message handler, the connection handshake, the
command table, the argument sanitizer and the CRLF rewriting of `sendText`
are each translated directly from the JavaScript source.  Where the model
must describe behaviour of the Node.js runtime rather than of this file
(property lookup on object literals, the child_process event contract), the
corresponding definition carries a comment naming the runtime rule it
encodes.
-/

namespace Terminal

/-- Convert a string literal to the `List Char` representation used
throughout this development. -/
def str (s : String) : List Char := s.data

/-! ## JavaScript primitive string operations -/

/-- Character class of JavaScript whitespace, as used by both
`String.prototype.trim` and the regular-expression class `\s`
(`raw.split(/\s+/)` in the source): tab, LF, VT, FF, CR, space, NBSP,
U+1680, U+2000..U+200A, LS, PS, U+202F, U+205F, U+3000 and the BOM. -/
def jsIsSpace (c : Char) : Bool :=
  (c.toNat ∈ ([9, 10, 11, 12, 13, 32, 160, 5760, 8232, 8233, 8239, 8287,
      12288, 65279] : List Nat))
  || (8192 ≤ c.toNat && c.toNat ≤ 8202)

/-- Model of `msg.toString().trim()`: drop JavaScript whitespace from both
ends of the string. -/
def jsTrim (s : List Char) : List Char :=
  ((s.dropWhile jsIsSpace).reverse.dropWhile jsIsSpace).reverse

/-- Worker for `jsSplitWs`.  `cur` is the piece currently being read (in
reverse); `skipping` is true while inside a run of whitespace that has
already produced a piece boundary. -/
def splitGo : List Char → List Char → Bool → List (List Char)
  | [], cur, _ => [cur.reverse]
  | c :: rest, cur, skipping =>
    if jsIsSpace c then
      if skipping then splitGo rest cur skipping
      else cur.reverse :: splitGo rest [] true
    else splitGo rest (c :: cur) false

/-- Model of `raw.split(/\s+/)`: split on maximal runs of JavaScript
whitespace.  As in JavaScript, the result is never empty (splitting the
empty string yields `[""]`), and a leading or trailing run of whitespace
contributes an empty piece. -/
def jsSplitWs (s : List Char) : List (List Char) := splitGo s [] false

/-! ## Argument sanitizer (`sanitizeArgs`) -/

/-- Character class `[0-9;]` of the sanitizer regular expression
`/\x1B\[[0-9;]*[A-Za-z]/g` (codepoints 48..57 and 59). -/
def isParamByte (c : Char) : Bool :=
  (48 ≤ c.toNat && c.toNat ≤ 57) || c.toNat = 59

/-- Character class `[A-Za-z]` of the final byte of the sanitizer pattern
(codepoints 65..90 and 97..122). -/
def isFinalByte (c : Char) : Bool :=
  (65 ≤ c.toNat && c.toNat ≤ 90) || (97 ≤ c.toNat && c.toNat ≤ 122)

/-- The ESC character `\x1B` that opens an ANSI escape sequence. -/
def escChar : Char := '\x1B'

/-- Attempt to read `[0-9;]*[A-Za-z]` at the head of `l` (the part of the
sanitizer pattern after `ESC [`).  Returns the remainder of the string
after the final byte when the pattern matches, `none` otherwise.  Because
the parameter class and the final class are disjoint, this greedy scan is
exactly the behaviour of the backtracking regex engine. -/
def csiTail : List Char → Option (List Char)
  | [] => none
  | c :: rest =>
    if isParamByte c then csiTail rest
    else if isFinalByte c then some rest else none

/-- Fuelled scanner implementing one global-replace pass of
`a.replace(/\x1B\[[0-9;]*[A-Za-z]/g, '')`: walk left to right, delete each
(leftmost, non-overlapping) match of the pattern, keep every other
character, and continue after the end of each deleted match.  The fuel is
only a termination device; `stripAnsi` supplies `s.length`, which is always
sufficient. -/
def stripAnsiF : Nat → List Char → List Char
  | 0, s => s
  | _ + 1, [] => []
  | n + 1, c :: rest =>
    if c = escChar then
      match rest with
      | [] => c :: stripAnsiF n []
      | d :: rest2 =>
        if d = '[' then
          match csiTail rest2 with
          | some r => stripAnsiF n r
          | none => c :: stripAnsiF n (d :: rest2)
        else c :: stripAnsiF n (d :: rest2)
    else c :: stripAnsiF n rest

/-- Model of `a.replace(/\x1B\[[0-9;]*[A-Za-z]/g, '')` for one argument. -/
def stripAnsi (s : List Char) : List Char := stripAnsiF s.length s

/-- Model of `sanitizeArgs` from the source: sanitize each argument
independently. -/
def sanitizeArgs (args : List (List Char)) : List (List Char) :=
  args.map stripAnsi

/-! ## CRLF rewriting (`sendText`) -/

/-- Model of `String(text).replace(/\n/g, '\r\n')` performed by `sendText`
before every transmission: each LF is replaced by CR LF. -/
def crlf : List Char → List Char
  | [] => []
  | c :: rest => if c = '\n' then '\r' :: '\n' :: crlf rest else c :: crlf rest

/-! ## Command table (`mapCommands`) -/

/-- A resolved command: executable name and fixed base arguments, as stored
in the `mapCommands` object literal. -/
structure CommandSpec where
  cmd : List Char
  args : List (List Char)
deriving DecidableEq, Repr

/-- Result of the JavaScript property read `mapCommands[command]`. -/
inductive LookupResult where
  /-- An own property holding a command record (truthy). -/
  | spec (cs : CommandSpec)
  /-- An own property holding `null` (`less`/`head`/`tail` on Windows);
  falsy, so the allowlist check rejects it. -/
  | nullEntry
  /-- A property inherited from `Object.prototype` (for example
  `toString`); truthy, so the allowlist check `!mapCommands[command]`
  passes even though the name is not one of the six commands. -/
  | protoFn
  /-- No property of this name exists anywhere on the prototype chain;
  the read yields `undefined` (falsy). -/
  | absent
deriving DecidableEq, Repr

/-- Property names inherited by every object literal from
`Object.prototype`; reading any of them on `mapCommands` yields a truthy
value (a function, or the prototype object itself for `__proto__`). -/
def objectProtoProps : List (List Char) :=
  [str "constructor", str "hasOwnProperty", str "isPrototypeOf",
   str "propertyIsEnumerable", str "toLocaleString", str "toString",
   str "valueOf", str "__proto__", str "__defineGetter__",
   str "__defineSetter__", str "__lookupGetter__", str "__lookupSetter__"]

/-- Model of the JavaScript property read `mapCommands[name]` on the object
literal from the source, for host platform `isWin`
(`process.platform === 'win32'`).  Own properties are the six command
names; any other name falls through to the `Object.prototype` chain, a
property of the JavaScript object model rather than of the source text. -/
def mapCommands (isWin : Bool) (name : List Char) : LookupResult :=
  if name = str "ls" then
    .spec (if isWin then ⟨str "cmd", [str "/c", str "dir"]⟩ else ⟨str "ls", []⟩)
  else if name = str "pwd" then
    .spec (if isWin then ⟨str "cmd", [str "/c", str "cd"]⟩ else ⟨str "pwd", []⟩)
  else if name = str "cat" then
    .spec (if isWin then ⟨str "cmd", [str "/c", str "type"]⟩ else ⟨str "cat", []⟩)
  else if name = str "less" then
    (if isWin then .nullEntry else .spec ⟨str "less", []⟩)
  else if name = str "head" then
    (if isWin then .nullEntry else .spec ⟨str "head", []⟩)
  else if name = str "tail" then
    (if isWin then .nullEntry else .spec ⟨str "tail", []⟩)
  else if name ∈ objectProtoProps then .protoFn
  else .absent

/-! ## Message handler -/

/-- Maximum inbound message length (`MAX_MSG_LEN = 10_000`). -/
def MAX_MSG_LEN : Nat := 10000

/-- The sandbox working directory `SAFE_DIR = path.resolve('./projects/demo')`,
fixed at startup.  The absolute prefix added by `path.resolve` is host
specific; the constant is only ever compared for identity. -/
def SAFE_DIR : List Char := str "projects/demo"

/-- An observable effect of the message handler: a `sendText` call (the
recorded text is the argument handed to `sendText`, before CRLF rewriting)
or a `spawn` call with its full argument vector, `shell` option and working
directory. -/
inductive Action where
  | send (text : List Char)
  | spawnP (cmd : List Char) (args : List (List Char)) (shell : Bool)
      (cwd : List Char)
deriving DecidableEq, Repr

/-- Whether the async message handler ran to completion or terminated with
a thrown `TypeError` (which Node surfaces as an unhandled promise
rejection). -/
inductive Outcome where
  | ok
  | threw
deriving DecidableEq, Repr

/-- Effects and termination mode of one run of the `ws.on('message')`
handler. -/
structure HandlerResult where
  acts : List Action
  out : Outcome
deriving DecidableEq, Repr

/-- Body of the message handler after `const raw = msg.toString().trim()`:
the `__ping__` short-circuit, the length check, `raw.split(/\s+/)`
destructured into `command` and `args`, the allowlist check, and the
`spawn` call.  When the property read hits an `Object.prototype` function,
destructuring `{ cmd, args: baseArgs }` yields `undefined` for both fields
and the spread `[...baseArgs, ...args]` throws a `TypeError`, so no message
is sent and nothing is spawned. -/
def handleRaw (isWin : Bool) (raw : List Char) : HandlerResult :=
  if raw = str "__ping__" then ⟨[], .ok⟩
  else if MAX_MSG_LEN < raw.length then
    ⟨[.send (str "❌ Input too long\n")], .ok⟩
  else
    match mapCommands isWin ((jsSplitWs raw).headD []) with
    | .spec cs =>
      ⟨[.spawnP cs.cmd (sanitizeArgs (cs.args ++ (jsSplitWs raw).tail))
          false SAFE_DIR], .ok⟩
    | .protoFn => ⟨[], .threw⟩
    | _ =>
      ⟨[.send (str "❌ Command not allowed: " ++ (jsSplitWs raw).headD []
          ++ str "\n")], .ok⟩

/-- One run of the `ws.on('message')` handler on an inbound message. -/
def handleMessage (isWin : Bool) (msg : List Char) : HandlerResult :=
  handleRaw isWin (jsTrim msg)

/-! ## Child-process event protocol

The handler registers exactly three listeners on the spawned child:
`child.stdout.on('data')`, `child.stderr.on('data')` and
`child.on('close')`.  It registers no `'error'` listener.  The event model
below encodes the Node.js child_process contract: a process that starts
delivers interleaved stdout/stderr data events followed by exactly one
`'close'` event (whose code is `null` when the process was killed by a
signal), and nothing after it; a process that fails to start emits
`'error'`, and an `'error'` event on an emitter with no `'error'` listener
is thrown, so no further event of that child is observed by the handler. -/

/-- Rendering of the `close` code interpolated into the status line:
a number, or `null` when the process was killed by a signal. -/
def showCode : Option Int → List Char
  | none => str "null"
  | some i => (toString i).data

/-- Text of the terminal status line sent by the `'close'` listener. -/
def statusText (code : Option Int) : List Char :=
  str "Process finished with exit code " ++ showCode code ++ str "\n"

/-- A stdout or stderr `'data'` event. -/
inductive DataEvent where
  | outD (d : List Char)
  | errD (d : List Char)
deriving DecidableEq, Repr

/-- An event emitted by the child process object. -/
inductive ProcEvent where
  | dataEv (d : DataEvent)
  | closeEv (code : Option Int)
  | errorEv
deriving DecidableEq, Repr

/-- The `sendText` call made by the registered listener for one data
event: stdout chunks verbatim, stderr chunks prefixed with `Error: `. -/
def dataAction : DataEvent → Action
  | .outD d => .send d
  | .errD d => .send (str "Error: " ++ d)

/-- Deliver a sequence of child events to the registered listeners.
A data event runs the corresponding data listener; `'close'` runs the
status-line listener; `'error'` has no listener, so the emitter throws and
no later event is processed. -/
def runEvents : List ProcEvent → HandlerResult
  | [] => ⟨[], .ok⟩
  | .errorEv :: _ => ⟨[], .threw⟩
  | .dataEv d :: rest =>
    ⟨dataAction d :: (runEvents rest).acts, (runEvents rest).out⟩
  | .closeEv code :: rest =>
    ⟨.send (statusText code) :: (runEvents rest).acts, (runEvents rest).out⟩

/-! ## Connection handshake -/

/-- Outcome of `getAuth().verifyIdToken(token)` for the supplied token. -/
inductive AuthResult where
  | valid (uid : List Char)
  | invalid
deriving DecidableEq, Repr

/-- Observable result of the `wss.on('connection')` handler up to the
point where the message loop is (or is not) installed: the `sendText`
source texts in order, the `ws.close(code, reason)` call if any, and
whether the `ws.on('message')` listener was registered. -/
structure ConnResult where
  sends : List (List Char)
  closed : Option (Nat × List Char)
  msgHandlerActive : Bool
deriving DecidableEq, Repr

/-- The welcome banner sent after successful authentication. -/
def welcomeBanner : List Char :=
  str "Welcome to the secure terminal!\nAllowed commands: ls, pwd, cat, less, head, tail\nDirectory: "
    ++ SAFE_DIR ++ str "\n"

/-- Model of the connection handler: `token` is
`url.searchParams.get("token")` (`none` when the parameter is absent; the
empty string, like `null`, is falsy in the guard `if (!token)`), and `auth`
is the verdict of the external verifier.  On a missing token the handler
sends one diagnostic, closes with code 1008 and returns before the message
listener is registered; likewise for an invalid token. -/
def connect (token : Option (List Char)) (auth : AuthResult) : ConnResult :=
  match token with
  | none => ⟨[str "❌ Token not received\n"], some (1008, str "No token"), false⟩
  | some t =>
    if t = [] then
      ⟨[str "❌ Token not received\n"], some (1008, str "No token"), false⟩
    else
      match auth with
      | .invalid =>
        ⟨[str "❌ Invalid token\n"], some (1008, str "Invalid token"), false⟩
      | .valid _ => ⟨[welcomeBanner], none, true⟩

/-! ## Session trace -/

/-- Per-session state observable across handler runs.  The source keeps no
busy flag; the only cross-message state is the set of in-flight child
processes, of which the model tracks the count. -/
structure SessState where
  running : Nat
deriving DecidableEq, Repr

/-- An event of the per-session event loop: an inbound client message, or
the `'close'` of one in-flight child process. -/
inductive SessEvent where
  | msg (m : List Char)
  | procClosed (code : Option Int)
deriving DecidableEq, Repr

/-- Number of `spawn` calls among the recorded actions. -/
def spawnCount (l : List Action) : Nat :=
  (l.filter fun a => match a with | .spawnP _ _ _ _ => true | _ => false).length

/-- One step of the session event loop: a message event runs the message
handler (each spawn action adds an in-flight process); a child `'close'`
event retires one process and sends its status line. -/
def stepSession (isWin : Bool) (st : SessState) :
    SessEvent → SessState × List Action
  | .msg m =>
    (⟨st.running + spawnCount (handleMessage isWin m).acts⟩,
      (handleMessage isWin m).acts)
  | .procClosed code => (⟨st.running - 1⟩, [.send (statusText code)])

/-- Run the session event loop over a list of events, collecting all
actions. -/
def runSession (isWin : Bool) (st : SessState) :
    List SessEvent → SessState × List Action
  | [] => (st, [])
  | e :: rest =>
    ((runSession isWin (stepSession isWin st e).1 rest).1,
      (stepSession isWin st e).2 ++ (runSession isWin (stepSession isWin st e).1 rest).2)

/-! ## Wire frames -/

/-- Payload actually handed to `ws.send` for a recorded `sendText` call:
`sendText` rewrites every LF of its argument to CR LF. -/
def wirePayload : Action → Option (List Char)
  | .send t => some (crlf t)
  | _ => none

/-- The frames transmitted for a list of recorded actions. -/
def wireFrames (l : List Action) : List (List Char) := l.filterMap wirePayload

/-- A frame is CRLF-normalized when every LF in it is immediately preceded
by a CR. -/
def noBareLF : List Char → Bool
  | [] => true
  | [c] => c ≠ '\n'
  | c :: c' :: rest =>
    if c' = '\n' then c = '\r' && noBareLF rest
    else c ≠ '\n' && noBareLF (c' :: rest)

/-! ## Declarative sanitizer property

The relation below is written from the specification text, not from the
source: it relates an input argument to the result of removing every
(leftmost, non-overlapping) substring matching the ANSI escape-sequence
pattern while leaving every other character unaltered and in order.  The
refinement theorem for the sanitizer connects `stripAnsi` to it. -/

/-- A full match of the pattern `ESC [ [0-9;]* [A-Za-z]`. -/
def IsAnsiMatch (m : List Char) : Prop :=
  ∃ body f, m = escChar :: '[' :: (body ++ [f])
    ∧ (∀ c ∈ body, isParamByte c = true) ∧ isFinalByte f = true

/-- The pattern matches at the head of `s`. -/
def MatchStartsAt (s : List Char) : Prop :=
  ∃ m r, IsAnsiMatch m ∧ s = m ++ r

/-- Declarative removal relation: `Strips s t` holds when `t` is obtained
from `s` by deleting every substring matching the escape-sequence pattern,
scanning left to right and resuming after the end of each deleted match,
and keeping every other character unchanged and in order. -/
inductive Strips : List Char → List Char → Prop where
  | nil : Strips [] []
  | strip (m s t) : IsAnsiMatch m → Strips s t → Strips (m ++ s) t
  | keep (c s t) : ¬ MatchStartsAt (c :: s) → Strips s t →
      Strips (c :: s) (c :: t)

/-! ## Sanitizer lemmas -/

theorem csiTail_length : ∀ l r : List Char, csiTail l = some r → r.length < l.length := by
  intro l
  induction l with
  | nil => intro r h; simp [csiTail] at h
  | cons c rest ih =>
    intro r h
    simp only [csiTail] at h
    by_cases hp : isParamByte c = true
    · rw [if_pos hp] at h
      have := ih r h
      simp only [List.length_cons]
      omega
    · rw [if_neg hp] at h
      by_cases hf : isFinalByte c = true
      · rw [if_pos hf] at h
        cases h
        simp
      · rw [if_neg hf] at h
        cases h

theorem stripAnsiF_nil : ∀ n, stripAnsiF n [] = [] := by
  intro n; cases n <;> rfl

theorem param_not_final {c : Char} (h : isParamByte c = true) :
    isFinalByte c = false := by
  simp only [isParamByte, Bool.or_eq_true, Bool.and_eq_true, decide_eq_true_eq] at h
  by_contra hf
  have hf' : isFinalByte c = true := by
    cases hx : isFinalByte c
    · exact absurd hx hf
    · rfl
  simp only [isFinalByte, Bool.or_eq_true, Bool.and_eq_true, decide_eq_true_eq] at hf'
  omega

theorem csiTail_some_decomp : ∀ l r : List Char, csiTail l = some r →
    ∃ body f, l = body ++ f :: r ∧ (∀ c ∈ body, isParamByte c = true)
      ∧ isFinalByte f = true := by
  intro l
  induction l with
  | nil => intro r h; simp [csiTail] at h
  | cons c rest ih =>
    intro r h
    simp only [csiTail] at h
    by_cases hp : isParamByte c = true
    · rw [if_pos hp] at h
      obtain ⟨body, f, hrest, hbody, hf⟩ := ih r h
      exact ⟨c :: body, f, by simp [hrest], by
        intro x hx
        rcases List.mem_cons.1 hx with h1 | h2
        · exact h1 ▸ hp
        · exact hbody x h2, hf⟩
    · rw [if_neg hp] at h
      by_cases hf : isFinalByte c = true
      · rw [if_pos hf] at h
        cases h
        exact ⟨[], c, rfl, by simp, hf⟩
      · rw [if_neg hf] at h
        cases h

theorem csiTail_of_decomp : ∀ (body : List Char) (f : Char) (r : List Char),
    (∀ c ∈ body, isParamByte c = true) → isFinalByte f = true →
    csiTail (body ++ f :: r) = some r := by
  intro body
  induction body with
  | nil =>
    intro f r _ hf
    have hp : isParamByte f = false := by
      by_contra h
      have : isParamByte f = true := by
        cases hpf : isParamByte f
        · exact absurd hpf h
        · rfl
      rw [param_not_final this] at hf
      cases hf
    simp [csiTail, hp, hf]
  | cons c body ih =>
    intro f r hb hf
    have hc : isParamByte c = true := hb c (List.mem_cons_self c body)
    simp only [List.cons_append, csiTail, hc, if_pos]
    exact ih f r (fun x hx => hb x (List.mem_cons_of_mem c hx)) hf

theorem not_matchStartsAt_of_head {c : Char} {s : List Char}
    (hc : c ≠ escChar) : ¬ MatchStartsAt (c :: s) := by
  rintro ⟨m, r, ⟨body, f, hm, -, -⟩, heq⟩
  rw [hm] at heq
  simp only [List.cons_append, List.cons.injEq] at heq
  exact hc heq.1

theorem not_matchStartsAt_of_second {c d : Char} {s : List Char}
    (hd : d ≠ '[') : ¬ MatchStartsAt (c :: d :: s) := by
  rintro ⟨m, r, ⟨body, f, hm, -, -⟩, heq⟩
  rw [hm] at heq
  simp only [List.cons_append, List.cons.injEq] at heq
  exact hd heq.2.1

theorem strips_stripAnsiF : ∀ n (s : List Char), s.length ≤ n →
    Strips s (stripAnsiF n s) := by
  intro n
  induction n with
  | zero =>
    intro s hs
    have : s = [] := List.length_eq_zero.1 (Nat.le_zero.1 hs)
    subst this
    exact Strips.nil
  | succ n ih =>
    intro s hs
    match s with
    | [] => exact stripAnsiF_nil (n+1) ▸ Strips.nil
    | c :: rest =>
      by_cases hc : c = escChar
      · subst hc
        match rest with
        | [] =>
          have hres : stripAnsiF (n+1) [escChar] = escChar :: stripAnsiF n [] := by
            simp [stripAnsiF]
          rw [hres, stripAnsiF_nil n]
          refine Strips.keep _ _ _ ?_ Strips.nil
          rintro ⟨m, r, ⟨body, f, hm, -, -⟩, heq⟩
          rw [hm] at heq
          simp at heq
        | d :: rest1 =>
          by_cases hd : d = '['
          · subst hd
            cases hcs : csiTail rest1 with
            | some r =>
              have hres : stripAnsiF (n+1) (escChar :: '[' :: rest1)
                  = stripAnsiF n r := by
                simp [stripAnsiF, hcs]
              rw [hres]
              obtain ⟨body, f, hrest1, hbody, hf⟩ := csiTail_some_decomp rest1 r hcs
              have hlen : r.length ≤ n := by
                have h1 := csiTail_length rest1 r hcs
                simp only [List.length_cons] at hs
                omega
              have hmatch : IsAnsiMatch (escChar :: '[' :: (body ++ [f])) :=
                ⟨body, f, rfl, hbody, hf⟩
              have hsplit : escChar :: '[' :: rest1
                  = (escChar :: '[' :: (body ++ [f])) ++ r := by
                simp [hrest1]
              rw [hsplit]
              exact Strips.strip _ _ _ hmatch (ih r hlen)
            | none =>
              have hres : stripAnsiF (n+1) (escChar :: '[' :: rest1)
                  = escChar :: stripAnsiF n ('[' :: rest1) := by
                simp [stripAnsiF, hcs]
              rw [hres]
              refine Strips.keep _ _ _ ?_ (ih ('[' :: rest1) ?_)
              · rintro ⟨m, r, ⟨body, f, hm, hbody, hf⟩, heq⟩
                rw [hm] at heq
                simp only [List.cons_append, List.cons.injEq] at heq
                obtain ⟨-, -, hrest1⟩ := heq
                rw [List.append_assoc] at hrest1
                simp only [List.singleton_append] at hrest1
                rw [hrest1, csiTail_of_decomp body f r hbody hf] at hcs
                cases hcs
              · simp only [List.length_cons] at hs ⊢
                omega
          · have hres : stripAnsiF (n+1) (escChar :: d :: rest1)
                = escChar :: stripAnsiF n (d :: rest1) := by
              simp [stripAnsiF, hd]
            rw [hres]
            refine Strips.keep _ _ _ (not_matchStartsAt_of_second hd)
              (ih (d :: rest1) ?_)
            simp only [List.length_cons] at hs ⊢
            omega
      · have hres : stripAnsiF (n+1) (c :: rest) = c :: stripAnsiF n rest := by
          simp [stripAnsiF, hc]
        rw [hres]
        refine Strips.keep _ _ _ (not_matchStartsAt_of_head hc) (ih rest ?_)
        simp only [List.length_cons] at hs
        omega

theorem strips_stripAnsi (s : List Char) : Strips s (stripAnsi s) :=
  strips_stripAnsiF s.length s le_rfl

/-! ## Trim lemmas -/

theorem dropWhile_dropWhile {α : Type} (p : α → Bool) (l : List α) :
    (l.dropWhile p).dropWhile p = l.dropWhile p := by
  induction l with
  | nil => rfl
  | cons a l ih =>
    by_cases h : p a = true
    · simp [List.dropWhile_cons, h, ih]
    · have h' : p a = false := by
        cases hx : p a
        · rfl
        · exact absurd hx h
      simp [List.dropWhile_cons, h']

theorem dropWhile_head_false {α : Type} (p : α → Bool) :
    ∀ (l : List α) (c : α) (r : List α), l.dropWhile p = c :: r → p c = false := by
  intro l
  induction l with
  | nil => intro c r h; cases h
  | cons a l ih =>
    intro c r h
    rw [List.dropWhile_cons] at h
    by_cases ha : p a = true
    · rw [if_pos ha] at h
      exact ih c r h
    · rw [if_neg ha] at h
      cases h
      cases hx : p a
      · rfl
      · exact absurd hx ha

theorem dropWhile_of_head_false {α : Type} (p : α → Bool) (l : List α) (c : α)
    (hh : l.head? = some c) (hc : p c = false) : l.dropWhile p = l := by
  cases l with
  | nil => cases hh
  | cons a l =>
    have : a = c := by
      simp only [List.head?_cons, Option.some.injEq] at hh
      exact hh
    subst this
    rw [List.dropWhile_cons, hc]
    simp

theorem jsTrim_dropWhile (l : List Char) :
    (jsTrim l).dropWhile jsIsSpace = jsTrim l := by
  unfold jsTrim
  by_cases hBne : (l.dropWhile jsIsSpace).reverse.dropWhile jsIsSpace = []
  · rw [hBne]
    simp
  · obtain ⟨w, hw⟩ :=
      List.dropWhile_suffix (l := (l.dropWhile jsIsSpace).reverse) (p := jsIsSpace)
    have hAne : l.dropWhile jsIsSpace ≠ [] := by
      intro hA
      apply hBne
      rw [hA]
      simp
    obtain ⟨a, A', hA⟩ := List.exists_cons_of_ne_nil hAne
    have hpa : jsIsSpace a = false := dropWhile_head_false jsIsSpace l a A' hA
    have hlast : ((l.dropWhile jsIsSpace).reverse.dropWhile jsIsSpace).getLast?
        = some a := by
      have h1 : (w ++ (l.dropWhile jsIsSpace).reverse.dropWhile jsIsSpace).getLast?
          = ((l.dropWhile jsIsSpace).reverse.dropWhile jsIsSpace).getLast? :=
        List.getLast?_append_of_ne_nil w hBne
      rw [hw] at h1
      rw [← h1, List.getLast?_reverse, hA]
      rfl
    have hhead : ((l.dropWhile jsIsSpace).reverse.dropWhile jsIsSpace).reverse.head?
        = some a := by
      rw [List.head?_reverse]
      exact hlast
    exact dropWhile_of_head_false jsIsSpace _ a hhead hpa

theorem jsTrim_idem (s : List Char) : jsTrim (jsTrim s) = jsTrim s := by
  have h1 : (jsTrim s).dropWhile jsIsSpace = jsTrim s := jsTrim_dropWhile s
  show ((((jsTrim s).dropWhile jsIsSpace).reverse).dropWhile jsIsSpace).reverse
      = jsTrim s
  rw [h1]
  unfold jsTrim
  rw [List.reverse_reverse, dropWhile_dropWhile]

theorem dropWhile_replicate_append {α : Type} (p : α → Bool) (a : α)
    (h : p a = true) :
    ∀ (n : Nat) (l : List α),
      (List.replicate n a ++ l).dropWhile p = l.dropWhile p := by
  intro n
  induction n with
  | zero => intro l; rfl
  | succ n ih =>
    intro l
    rw [List.replicate_succ, List.cons_append, List.dropWhile_cons, h]
    simp only [if_true]
    exact ih l

/-! ## CRLF lemmas -/

theorem crlf_head_ne_lf : ∀ (s : List Char) (c : Char) (l : List Char),
    crlf s = c :: l → c ≠ '\n' := by
  intro s c l h
  cases s with
  | nil => cases h
  | cons c' r =>
    by_cases hc' : c' = '\n'
    · subst hc'
      have e : crlf ('\n' :: r) = '\r' :: '\n' :: crlf r := by simp [crlf]
      rw [e] at h
      injection h with h1 h2
      rw [← h1]
      decide
    · have e : crlf (c' :: r) = c' :: crlf r := by simp [crlf, hc']
      rw [e] at h
      injection h with h1 h2
      rw [← h1]
      exact hc'

theorem noBareLF_crlf (s : List Char) : noBareLF (crlf s) = true := by
  induction s with
  | nil => rfl
  | cons c r ih =>
    by_cases hc : c = '\n'
    · subst hc
      have h : crlf ('\n' :: r) = '\r' :: '\n' :: crlf r := by simp [crlf]
      rw [h]
      simp [noBareLF, ih]
    · have h : crlf (c :: r) = c :: crlf r := by simp [crlf, hc]
      rw [h]
      cases hcr : crlf r with
      | nil => simp [noBareLF, hc]
      | cons c' l' =>
        have hc' : c' ≠ '\n' := crlf_head_ne_lf r c' l' hcr
        rw [hcr] at ih
        simp [noBareLF, hc, hc', ih]

theorem crlf_eq_flatMap (s : List Char) :
    crlf s = s.flatMap (fun c => if c = '\n' then ['\r', '\n'] else [c]) := by
  induction s with
  | nil => rfl
  | cons c r ih =>
    by_cases hc : c = '\n' <;> simp [crlf, hc, ih]

theorem noBareLF_wireFrames (l : List Action) :
    (wireFrames l).all noBareLF = true := by
  induction l with
  | nil => rfl
  | cons a l ih =>
    cases a with
    | send t =>
      have e : wireFrames (Action.send t :: l) = crlf t :: wireFrames l := by
        simp [wireFrames, List.filterMap_cons, wirePayload]
      rw [e, List.all_cons, noBareLF_crlf, ih]
      rfl
    | spawnP c as sh cw =>
      have e : wireFrames (Action.spawnP c as sh cw :: l) = wireFrames l := by
        simp [wireFrames, List.filterMap_cons, wirePayload]
      rw [e]
      exact ih

theorem all_noBareLF_map_crlf (l : List (List Char)) :
    (l.map crlf).all noBareLF = true := by
  induction l with
  | nil => rfl
  | cons t l ih =>
    rw [List.map_cons, List.all_cons, noBareLF_crlf, ih]
    rfl

/-! ## Handler lemmas -/

theorem sanitizeArgs_append (a b : List (List Char)) :
    sanitizeArgs (a ++ b) = sanitizeArgs a ++ sanitizeArgs b :=
  List.map_append stripAnsi a b

theorem base_args_clean (isWin : Bool) (name : List Char) (cs : CommandSpec)
    (h : mapCommands isWin name = .spec cs) : sanitizeArgs cs.args = cs.args := by
  cases isWin <;>
    (simp only [mapCommands] at h
     split_ifs at h <;> (cases h; decide))

theorem handleRaw_accepted (isWin : Bool) (raw : List Char) (cs : CommandSpec)
    (hcmd : mapCommands isWin ((jsSplitWs raw).headD []) = .spec cs)
    (hlen : ¬ MAX_MSG_LEN < raw.length)
    (hping : raw ≠ str "__ping__") :
    handleRaw isWin raw
      = ⟨[.spawnP cs.cmd (sanitizeArgs (cs.args ++ (jsSplitWs raw).tail))
          false SAFE_DIR], .ok⟩ := by
  unfold handleRaw
  rw [if_neg hping, if_neg hlen, hcmd]

theorem runEvents_data_close (ds : List DataEvent) (code : Option Int) :
    runEvents (ds.map ProcEvent.dataEv ++ [ProcEvent.closeEv code])
      = ⟨ds.map dataAction ++ [Action.send (statusText code)], .ok⟩ := by
  induction ds with
  | nil => rfl
  | cons d ds ih =>
    simp only [List.map_cons, List.cons_append, runEvents, List.append_eq, ih]

theorem dropWhile_replicate_a (n : Nat) :
    (List.replicate (n+1) 'a').dropWhile jsIsSpace = List.replicate (n+1) 'a' := by
  have h : jsIsSpace 'a' = false := by decide
  rw [List.replicate_succ, List.dropWhile_cons, h]
  simp

theorem jsTrim_replicate_a (n : Nat) :
    jsTrim (List.replicate (n+1) 'a') = List.replicate (n+1) 'a' := by
  unfold jsTrim
  rw [dropWhile_replicate_a, List.reverse_replicate, dropWhile_replicate_a,
    List.reverse_replicate]

theorem jsTrim_ls_pad : jsTrim (str "ls" ++ List.replicate 10000 ' ') = str "ls" := by
  have hsp : jsIsSpace ' ' = true := by decide
  have hl : jsIsSpace 'l' = false := by decide
  unfold jsTrim
  have e : str "ls" ++ List.replicate 10000 ' '
      = 'l' :: ('s' :: List.replicate 10000 ' ') := rfl
  have e1 : (str "ls" ++ List.replicate 10000 ' ').dropWhile jsIsSpace
      = str "ls" ++ List.replicate 10000 ' ' := by
    rw [e, List.dropWhile_cons, hl, if_neg Bool.false_ne_true]
  rw [e1]
  have e2 : (str "ls" ++ List.replicate 10000 ' ').reverse
      = List.replicate 10000 ' ' ++ ['s', 'l'] := by
    rw [e, List.reverse_cons, List.reverse_cons, List.reverse_replicate,
      List.append_assoc]
    rfl
  rw [e2, dropWhile_replicate_append jsIsSpace ' ' hsp]
  have e3 : (['s', 'l'] : List Char).dropWhile jsIsSpace = ['s', 'l'] := by decide
  rw [e3]
  rfl

/-! ## Claims -/

/-- C1 (code evaluation at the failing input): the name `toString` is not
one of the six allowed commands, yet the property read
`mapCommands['toString']` resolves to a truthy `Object.prototype` function
on either platform, so the allowlist check passes, no `Command not
allowed` diagnostic is sent, and the handler dies with a thrown
`TypeError` instead (while a genuinely absent name such as `rm` does get
exactly the one diagnostic the claim describes).  This contradicts the
claim that no name outside the vocabulary ever resolves and that every
such name receives the diagnostic. -/
theorem c1_prototype_name_resolves_no_diagnostic :
    mapCommands false (str "toString") = .protoFn ∧
    mapCommands true (str "toString") = .protoFn ∧
    handleMessage false (str "toString") = ⟨[], .threw⟩ ∧
    handleMessage true (str "toString") = ⟨[], .threw⟩ ∧
    handleMessage false (str "rm -rf /")
      = ⟨[.send (str "❌ Command not allowed: rm\n")], .ok⟩ := by
  refine ⟨rfl, rfl, by decide, by decide, by decide⟩

/-- C2: `sanitizeArgs` maps the argument sequence to a sequence of the
same length where each output argument is related to its input argument by
`Strips`, the declarative relation that deletes exactly the substrings
matching the ANSI escape-sequence pattern (scanning left to right,
non-overlapping, resuming after each deleted match) and keeps every other
character unaltered and in order. -/
theorem c2_sanitize_is_exact_escape_removal (args : List (List Char)) :
    (sanitizeArgs args).length = args.length ∧
    List.Forall₂ Strips args (sanitizeArgs args) := by
  constructor
  · simp [sanitizeArgs]
  · induction args with
    | nil => exact List.Forall₂.nil
    | cons a l ih => exact List.Forall₂.cons (strips_stripAnsi a) ih

/-- C3: every accepted command message (trimmed length within the cap, not
the liveness probe, first token resolving to a command record) produces
exactly one action, a `spawn` whose argument vector is the base arguments
followed by the sanitized user arguments, with `shell` disabled and the
working directory forced to `SAFE_DIR`. -/
theorem c3_accepted_command_single_spawn (isWin : Bool) (msg : List Char)
    (cs : CommandSpec)
    (hcmd : mapCommands isWin ((jsSplitWs (jsTrim msg)).headD []) = .spec cs)
    (hlen : (jsTrim msg).length ≤ MAX_MSG_LEN)
    (hping : jsTrim msg ≠ str "__ping__") :
    handleMessage isWin msg
      = ⟨[.spawnP cs.cmd
          (cs.args ++ sanitizeArgs ((jsSplitWs (jsTrim msg)).tail))
          false SAFE_DIR], .ok⟩ := by
  have h := handleRaw_accepted isWin (jsTrim msg) cs hcmd
    (by omega) hping
  unfold handleMessage
  rw [h, sanitizeArgs_append, base_args_clean isWin _ cs hcmd]

/-- Witness for C3 at the concrete message `cat notes.txt` on a POSIX
host. -/
theorem c3_accepted_command_single_spawn_witness :
    mapCommands false ((jsSplitWs (jsTrim (str "cat notes.txt"))).headD [])
      = .spec ⟨str "cat", []⟩ ∧
    handleMessage false (str "cat notes.txt")
      = ⟨[.spawnP (str "cat")
          ((⟨str "cat", []⟩ : CommandSpec).args
            ++ sanitizeArgs ((jsSplitWs (jsTrim (str "cat notes.txt"))).tail))
          false SAFE_DIR], .ok⟩ :=
  ⟨by decide,
    c3_accepted_command_single_spawn false (str "cat notes.txt")
      ⟨str "cat", []⟩ (by decide) (by decide) (by decide)⟩

/-- C4 counterexample: when the child fails to start, the only event is
`'error'`, for which no listener is registered; the handler therefore
throws and no exit-status line (indeed no message at all) is emitted,
contradicting the claim that launch failure is reported as a terminal
status and never as a thrown fault. -/
theorem c4_launch_failure_counterexample :
    (runEvents [ProcEvent.errorEv]).acts = [] ∧
    (runEvents [ProcEvent.errorEv]).out = .threw :=
  ⟨rfl, rfl⟩

/-- C4 (amended): for every command whose child process actually starts,
the delivered events are its data events followed by one `'close'`, and
the handler emits the corresponding output chunks followed by exactly one
terminal status line, which is the last message of the command's output
sequence; the handler completes without a fault. -/
theorem c4_status_line_once_and_last (ds : List DataEvent) (code : Option Int) :
    runEvents (ds.map ProcEvent.dataEv ++ [ProcEvent.closeEv code])
      = ⟨ds.map dataAction ++ [Action.send (statusText code)], .ok⟩ :=
  runEvents_data_close ds code

/-- C5: a connection with no token (absent parameter, or the empty string,
which is equally falsy in the source's guard) receives exactly the
authentication diagnostic, is closed with policy-violation code 1008, the
welcome banner is never among its sends, and the message listener is never
registered, so no later message can be processed and no process can ever
be spawned on that connection. -/
theorem c5_missing_token_closes_before_banner (auth : AuthResult) :
    connect none auth
      = ⟨[str "❌ Token not received\n"], some (1008, str "No token"), false⟩ ∧
    connect (some []) auth
      = ⟨[str "❌ Token not received\n"], some (1008, str "No token"), false⟩ ∧
    welcomeBanner ∉ (connect none auth).sends ∧
    (connect none auth).msgHandlerActive = false := by
  refine ⟨rfl, rfl, ?_, rfl⟩
  have e : (connect none auth).sends = [str "❌ Token not received\n"] := rfl
  rw [e]
  decide

/-- C6 counterexample: the message `ls` followed by 10,000 spaces is
10,002 characters long — strictly above the cap — yet the handler does not
send `Input too long`: it trims first, sees the two-character command
`ls`, and spawns a process, contradicting the claim that every over-long
inbound message is discarded without side effects. -/
theorem c6_untrimmed_length_counterexample :
    MAX_MSG_LEN < (str "ls" ++ List.replicate 10000 ' ').length ∧
    handleMessage false (str "ls" ++ List.replicate 10000 ' ')
      = ⟨[.spawnP (str "ls") [] false SAFE_DIR], .ok⟩ := by
  constructor
  · rw [List.length_append, List.length_replicate]
    have h2 : (str "ls").length = 2 := rfl
    rw [h2]
    decide
  · unfold handleMessage
    rw [jsTrim_ls_pad]
    decide

/-- C6 (amended): every inbound message whose whitespace-trimmed content
is longer than 10,000 characters yields exactly the `Input too long`
diagnostic and nothing else — no spawn, no fault — so the session stays
open. -/
theorem c6_trimmed_length_cap (isWin : Bool) (msg : List Char)
    (h : MAX_MSG_LEN < (jsTrim msg).length) :
    handleMessage isWin msg = ⟨[.send (str "❌ Input too long\n")], .ok⟩ := by
  unfold handleMessage handleRaw
  have hne : jsTrim msg ≠ str "__ping__" := by
    intro he
    rw [he] at h
    have e8 : (str "__ping__").length = 8 := rfl
    rw [e8] at h
    exact absurd h (by decide)
  rw [if_neg hne, if_pos h]

/-- Witness for the amended C6 at a 10,001-character message of letters
`a`. -/
theorem c6_trimmed_length_cap_witness :
    MAX_MSG_LEN < (jsTrim (List.replicate 10001 'a')).length ∧
    handleMessage false (List.replicate 10001 'a')
      = ⟨[.send (str "❌ Input too long\n")], .ok⟩ := by
  have h : MAX_MSG_LEN < (jsTrim (List.replicate 10001 'a')).length := by
    have e : (10001 : Nat) = 10000 + 1 := rfl
    rw [e, jsTrim_replicate_a, List.length_replicate]
    decide
  exact ⟨h, c6_trimmed_length_cap false _ h⟩

/-- C7 counterexample: from an idle session, the two consecutive messages
`ls` and `pwd` — with no intervening process close — leave two child
processes in flight, so command execution is not serialized: the second
command runs while the first is still running. -/
theorem c7_concurrent_commands_counterexample :
    (runSession false ⟨0⟩
        [SessEvent.msg (str "ls"), SessEvent.msg (str "pwd")]).1.running = 2 ∧
    ¬ (runSession false ⟨0⟩
        [SessEvent.msg (str "ls"), SessEvent.msg (str "pwd")]).1.running ≤ 1 := by
  constructor
  · decide
  · decide

/-- C7 (amended): the session keeps no busy flag; an accepted command
message always spawns immediately, incrementing the number of in-flight
processes whatever that number already is, so overlapping commands run
concurrently on one session. -/
theorem c7_no_busy_gate (isWin : Bool) (st : SessState) (msg : List Char)
    (cs : CommandSpec)
    (hcmd : mapCommands isWin ((jsSplitWs (jsTrim msg)).headD []) = .spec cs)
    (hlen : (jsTrim msg).length ≤ MAX_MSG_LEN)
    (hping : jsTrim msg ≠ str "__ping__") :
    (stepSession isWin st (.msg msg)).1.running = st.running + 1 := by
  have h := handleRaw_accepted isWin (jsTrim msg) cs hcmd (by omega) hping
  have hm : handleMessage isWin msg
      = ⟨[.spawnP cs.cmd
          (sanitizeArgs (cs.args ++ (jsSplitWs (jsTrim msg)).tail))
          false SAFE_DIR], .ok⟩ := by
    unfold handleMessage
    exact h
  simp only [stepSession, hm]
  rfl

/-- Witness for the amended C7: an `ls` message arriving while three
processes are already in flight still spawns, giving four. -/
theorem c7_no_busy_gate_witness :
    mapCommands false ((jsSplitWs (jsTrim (str "ls"))).headD [])
      = .spec ⟨str "ls", []⟩ ∧
    (stepSession false ⟨3⟩ (.msg (str "ls"))).1.running = 3 + 1 :=
  ⟨by decide,
    c7_no_busy_gate false ⟨3⟩ (str "ls") ⟨str "ls", []⟩
      (by decide) (by decide) (by decide)⟩

/-- C8: `crlf` is exactly the rewrite of every line feed to carriage
return + line feed (and nothing else), and every frame put on the wire —
by the message handler (diagnostics), by the child-process listeners
(stdout chunks, `Error: `-prefixed stderr chunks, the status line) and by
the connection handshake (banner and authentication diagnostics) — passes
through it, so no transmitted frame contains a bare LF. -/
theorem c8_crlf_rewrite_every_frame :
    (∀ s : List Char,
      crlf s = s.flatMap (fun c => if c = '\n' then ['\r', '\n'] else [c])) ∧
    (∀ (isWin : Bool) (msg : List Char),
      (wireFrames (handleMessage isWin msg).acts).all noBareLF = true) ∧
    (∀ evs : List ProcEvent,
      (wireFrames (runEvents evs).acts).all noBareLF = true) ∧
    (∀ (token : Option (List Char)) (auth : AuthResult),
      ((connect token auth).sends.map crlf).all noBareLF = true) :=
  ⟨crlf_eq_flatMap,
    fun _ _ => noBareLF_wireFrames _,
    fun _ => noBareLF_wireFrames _,
    fun _ _ => all_noBareLF_map_crlf _⟩

/-- C9: the reserved liveness-probe literal `__ping__` produces zero
actions — no output frame, no spawn — the handler completes normally, and
the session state is left exactly as it was; the probe never reaches the
command-resolution path. -/
theorem c9_ping_is_noop (isWin : Bool) (st : SessState) :
    handleMessage isWin (str "__ping__") = ⟨[], .ok⟩ ∧
    stepSession isWin st (.msg (str "__ping__")) = (st, []) := by
  have h : handleMessage isWin (str "__ping__") = ⟨[], .ok⟩ := by
    unfold handleMessage
    have e : jsTrim (str "__ping__") = str "__ping__" := by decide
    rw [e]
    unfold handleRaw
    rw [if_pos rfl]
  refine ⟨h, ?_⟩
  simp only [stepSession, h]
  simp [spawnCount]

/-- C10: the handler first trims the inbound message (so its behaviour on
any message equals its behaviour on the trimmed message — trimming happens
before the length check and the parse), and a message that is empty or all
whitespace parses to the empty command token, which is rejected with a
`Command not allowed` diagnostic naming the empty string, with no spawn
and a normal completion. -/
theorem c10_trim_then_empty_command_diagnostic :
    (∀ (isWin : Bool) (msg : List Char),
      handleMessage isWin msg = handleMessage isWin (jsTrim msg)) ∧
    (∀ (isWin : Bool) (msg : List Char), msg.all jsIsSpace = true →
      jsSplitWs (jsTrim msg) = [[]] ∧
      handleMessage isWin msg
        = ⟨[.send (str "❌ Command not allowed: \n")], .ok⟩) := by
  constructor
  · intro isWin msg
    unfold handleMessage
    rw [jsTrim_idem]
  · intro isWin msg hsp
    have htr : jsTrim msg = [] := by
      unfold jsTrim
      have h1 : msg.dropWhile jsIsSpace = [] :=
        List.dropWhile_eq_nil_iff.2 (fun x hx => List.all_eq_true.1 hsp x hx)
      rw [h1]
      rfl
    refine ⟨by rw [htr]; rfl, ?_⟩
    unfold handleMessage
    rw [htr]
    rfl

/-- Witness for C10 at the two-space message. -/
theorem c10_trim_then_empty_command_diagnostic_witness :
    (str "  ").all jsIsSpace = true ∧
    jsSplitWs (jsTrim (str "  ")) = [[]] ∧
    handleMessage false (str "  ")
      = ⟨[.send (str "❌ Command not allowed: \n")], .ok⟩ := by
  have h : (str "  ").all jsIsSpace = true := by decide
  exact ⟨h,
    (c10_trim_then_empty_command_diagnostic.2 false (str "  ") h).1,
    (c10_trim_then_empty_command_diagnostic.2 false (str "  ") h).2⟩

end Terminal
